import Mathlib

/-
Verification of the exchange simulator (exchange.py) against its
specification.  The program is shallowly embedded: every definition below
mirrors the corresponding Python entity.

Representation choices, documented once here:

* Prices.  The program stores prices as Decimal values quantized to exactly
  two fractional digits (Decimal("0.01"), ROUND_HALF_UP) and afterwards only
  compares them and negates them (for the bid heap key).  A two-digit decimal
  is represented exactly by its integer number of hundredths ("cents"), and
  comparison and negation of decimals correspond exactly to comparison and
  negation of the cent counts, so Order.price is embedded as an integer
  number of cents.

* Price inputs.  The Python constructor parameter has type float, so the
  value that reaches Decimal(price) is the binary64 value of the callers
  argument, which is an exact rational.  Order.make therefore receives the
  exact rational value of that float as a numerator / denominator pair.
  The function float64Val models the conversion of a decimal literal to its
  binary64 value (round to nearest, ties to even, normal range), so that the
  whole pipeline "decimal literal -> float -> Decimal -> quantize" can be
  evaluated inside Lean.

* Errors.  Python raises ValueError for a non-positive execution quantity
  and for a symbol mismatch, and a bare Exception for an unknown side; the
  specification names these InvalidArgument, SymbolMismatch and UnknownSide.
  They are embedded as the inductive type ExchError, distinguished by raise
  site exactly as the taxonomy distinguishes them.

* Mutation.  The Python code mutates Order and OrderBook objects in place;
  the embedding passes the state explicitly.  Functions that can raise
  return the state as it is at the moment the exception propagates, which
  for every raise site below is the state reached so far (Python leaves the
  objects in exactly that state when the exception escapes).

* The heapq module.  The book keeps bids and offers in Python heapq heaps of
  tuples (key, order_id, order) and uses only heappush, heappop, heap[0] and
  emptiness.  Through this interface a heap is observationally a sequence
  ordered by (key, order_id): heap[0] is the least entry and heappop removes
  it.  The embedding therefore represents a heap as a list kept sorted by
  (key, order_id), with heappush inserting in order and heappop taking the
  head; this is exactly the library contract of heapq.

* Ghost instrumentation.  Trade records carry two extra fields (heapBefore,
  incomingBefore) recording the state of the opposite-side heap and of the
  incoming order at the moment the trade happened, and the match loop result
  carries the reason the loop stopped.  These fields are write-only
  instrumentation used to state the claims; no program decision reads them.

* Out of scope (only read or print final state, or are demo code): logging,
  display_book, show_trades, show_position, the class level OrderBook
  registry with show_all_trades / show_all_positions, the per-symbol
  order_id counter (Order.make takes the id explicitly, as the Python
  constructor does when order_id is passed), and main().
-/

namespace Exchange

/-! ## Binary64 model for the float price argument -/

/-- Fuel-driven base-2 logarithm on naturals, so that it reduces in the
kernel; log2Aux fuel n computes the floor of log2 n for n at most 2 ^ fuel
(and 0 for n smaller than 2). -/
def log2Aux : ℕ → ℕ → ℕ
  | 0, _ => 0
  | fuel + 1, n => if n < 2 then 0 else log2Aux fuel (n / 2) + 1

/-- Floor of the base-2 logarithm of a natural number (0 for 0 and 1). -/
def natLog2 (n : ℕ) : ℕ := log2Aux n n

/-- Test whether the positive rational n / d is strictly below 2 ^ e. -/
def ltPow2 (n d : ℕ) (e : ℤ) : Bool :=
  if 0 ≤ e then decide (n < d * 2 ^ e.toNat) else decide (n * 2 ^ (-e).toNat < d)

/-- Binary64 rounding of the positive rational n / d in the normal range:
returns the mantissa and the exponent u with value mantissa * 2 ^ u, with a
53-bit mantissa chosen by round to nearest, ties to even.  This models what
the Python runtime does to a decimal literal when it becomes a float. -/
def float64 (n d : ℕ) : ℕ × ℤ :=
  let e0 : ℤ := (natLog2 n : ℤ) - (natLog2 d : ℤ)
  let e : ℤ := if ltPow2 n d e0 then e0 - 1 else e0
  let u : ℤ := e - 52
  let N : ℕ := if 0 ≤ u then n else n * 2 ^ (-u).toNat
  let D : ℕ := if 0 ≤ u then d * 2 ^ u.toNat else d
  let m0 := N / D
  let r := N % D
  let m := if 2 * r < D then m0
    else if D < 2 * r then m0 + 1
    else if m0 % 2 = 0 then m0 else m0 + 1
  (m, u)

/-- Exact rational value of the binary64 nearest to n / d, as a numerator /
denominator pair. -/
def float64Val (n d : ℕ) : ℕ × ℕ :=
  if n = 0 then (0, 1)
  else
    let p := float64 n d
    if 0 ≤ p.2 then (p.1 * 2 ^ p.2.toNat, 1) else (p.1, 2 ^ (-p.2).toNat)

/-! ## Order -/

/-- Error taxonomy of the specification: InvalidArgument is the ValueError
raised by Order.execute, SymbolMismatch the ValueError raised by add_order on
a foreign symbol, UnknownSide the Exception raised by add_order on a side
that is neither BUY nor SELL. -/
inductive ExchError where
  | invalidArgument
  | symbolMismatch
  | unknownSide
deriving DecidableEq, Repr

deriving instance DecidableEq for Except

/-- Embedding of the Python Order object.  price is the quantized Decimal,
represented as an exact integer number of hundredths (cents). -/
structure Order where
  order_id : ℤ
  symbol : String
  side : String
  price : ℤ
  quantity : ℤ
  original_quantity : ℤ
deriving DecidableEq, Repr

/-- Embedding of Decimal(num / den).quantize(Decimal("0.01"), ROUND_HALF_UP)
for the exact rational num / den: half-up rounding (ties away from zero) of
100 * num / den to an integer number of cents.  For nonnegative x = p / q the
half-up rounding is the floor of x + 1 / 2, here (2 * p + q) / (2 * q) in
natural division with p = 100 * num. -/
def quantizeCents (num : ℤ) (den : ℕ) : ℤ :=
  if 0 ≤ num then ((200 * num.toNat + den) / (2 * den) : ℕ)
  else -(((200 * (-num).toNat + den) / (2 * den) : ℕ) : ℤ)

/-- Uppercasing of a string, character by character (the symbols and sides of
the program are ASCII, where Python str.upper and this function agree). -/
def strUpper (s : String) : String := ⟨s.data.map Char.toUpper⟩

/-- Embedding of Order.__init__ with an explicit order_id (the per-symbol
counter branch is out of scope; the claims quantify over ids).  priceNum and
priceDen give the exact rational value of the float argument; symbol and
side are uppercased and the price is quantized exactly as in the source. -/
def Order.make (symbol side : String) (priceNum : ℤ) (priceDen : ℕ)
    (quantity : ℤ) (orderId : ℤ) : Order :=
  { order_id := orderId
    symbol := strUpper symbol
    side := strUpper side
    price := quantizeCents priceNum priceDen
    quantity := quantity
    original_quantity := quantity }

/-- Embedding of Order.execute: raises InvalidArgument when the requested
quantity is not positive, otherwise removes the smaller of the requested and
the remaining quantity and returns it.  The returned Order is the state of
the object after the call (unchanged when the error is raised, because the
check precedes every mutation). -/
def Order.execute (o : Order) (execQuantity : ℤ) : Except ExchError ℤ × Order :=
  if execQuantity ≤ 0 then (.error .invalidArgument, o)
  else
    let actual := min execQuantity o.quantity
    (.ok actual, { o with quantity := o.quantity - actual })

/-- Embedding of Order.is_filled. -/
def Order.is_filled (o : Order) : Bool := o.quantity == 0

/-! ## OrderBook -/

/-- Heap entry, mirroring the Python tuple (key, order_id, order): for offers
the key is the price, for bids the negated price. -/
abbrev Entry := ℤ × ℤ × Order

/-- Lexicographic strict order on the (key, order_id) part of two entries,
mirroring Python tuple comparison (the third component is never reached for
distinct ids). -/
def entryLt (a b : Entry) : Prop :=
  a.1 < b.1 ∨ (a.1 = b.1 ∧ a.2.1 < b.2.1)

/-- Lexicographic weak order on the (key, order_id) part of two entries. -/
def entryLe (a b : Entry) : Prop :=
  a.1 < b.1 ∨ (a.1 = b.1 ∧ a.2.1 ≤ b.2.1)

instance (a b : Entry) : Decidable (entryLt a b) := by
  unfold entryLt; infer_instance

instance (a b : Entry) : Decidable (entryLe a b) := by
  unfold entryLe; infer_instance

/-- Embedding of heapq.heappush through the heapq contract: the heap is kept
as a list sorted by (key, order_id) and the new entry is inserted in order. -/
def heappush (heap : List Entry) (e : Entry) : List Entry :=
  match heap with
  | [] => [e]
  | h :: t => if entryLt e h then e :: h :: t else h :: heappush t e

/-- Sortedness of a heap list by (key, order_id); this is the observable
content of the heapq invariant. -/
def heapSorted (heap : List Entry) : Prop := heap.Pairwise entryLe

/-- Embedding of one executed-trade record.  The first five fields are the
keys of the Python dict; active_side is the argument of the same name passed
to _record_trade.  heapBefore and incomingBefore are ghost instrumentation:
the opposite-side heap and the incoming order as they were at the moment the
trade was recorded (used only to state properties, never read by the
program). -/
structure Trade where
  symbol : String
  buy_order_id : ℤ
  sell_order_id : ℤ
  price : ℤ
  quantity : ℤ
  active_side : Option String
  heapBefore : List Entry
  incomingBefore : Order
deriving DecidableEq, Repr

/-- Embedding of the positions dict: an association list from symbol to net
position. -/
abbrev Positions := List (String × ℤ)

/-- Embedding of positions.get(symbol, 0). -/
def posGet (ps : Positions) (s : String) : ℤ :=
  match ps with
  | [] => 0
  | (k, v) :: t => if k = s then v else posGet t s

/-- Embedding of positions[symbol] = v (replace if present, else append). -/
def posSet (ps : Positions) (s : String) (v : ℤ) : Positions :=
  match ps with
  | [] => [(s, v)]
  | (k, w) :: t => if k = s then (s, v) :: t else (k, w) :: posSet t s v

/-- Embedding of OrderBook._record_trade: appends the trade record and
updates the position of the book symbol according to active_side (+quantity
for BUY, -quantity for SELL, unchanged otherwise).  The book state touched by
the method (trades, positions) is passed and returned explicitly; hb and inc
fill the ghost fields. -/
def record_trade (bookSymbol : String) (trades : List Trade) (positions : Positions)
    (buyId sellId : ℤ) (price quantity : ℤ) (activeSide : Option String)
    (hb : List Entry) (inc : Order) : List Trade × Positions :=
  let t : Trade :=
    { symbol := bookSymbol
      buy_order_id := buyId
      sell_order_id := sellId
      price := price
      quantity := quantity
      active_side := activeSide
      heapBefore := hb
      incomingBefore := inc }
  let trades' := trades ++ [t]
  let positions' :=
    if activeSide = some "BUY" then
      posSet positions bookSymbol (posGet positions bookSymbol + quantity)
    else if activeSide = some "SELL" then
      posSet positions bookSymbol (posGet positions bookSymbol - quantity)
    else positions
  (trades', positions')

/-- Ghost tag telling why the matching loop of _match_order stopped:
heapEmpty and orderExhausted are the two ways the while condition fails,
noCross is the break when the best opposite price does not cross, partialRest
is the break after a partial fill of the resting order, and errored means an
exception propagated out of the loop. -/
inductive ExitReason where
  | heapEmpty
  | orderExhausted
  | noCross
  | partialRest
  | errored
deriving DecidableEq, Repr

/-- Result of the matching loop: the error if one propagated (err), the
incoming order, the opposite-side heap, the trade list and the positions as
they are when the loop stops, and the ghost exit reason. -/
structure MatchOut where
  err : Option ExchError
  order : Order
  heap : List Entry
  trades : List Trade
  positions : Positions
  reason : ExitReason
deriving DecidableEq, Repr

/-- Embedding of OrderBook._match_order.  The Python function is called with
side-specific closures; isBuy selects them exactly as the two call sites do:
for a BUY the heap is the offers heap, the sign is +1 and the cross test is
order.price >= best_price; for a SELL the heap is the bids heap, the sign is
-1 and the cross test is order.price <= best_price.  The loop runs while the
heap is nonempty and the order has positive quantity; a crossing best entry
trades min of the two remainders through Order.execute on both orders, the
trade is recorded, a filled resting order is popped and the loop continues,
a partially filled one stops the loop. -/
def match_order (bookSymbol : String) (isBuy : Bool) (order : Order)
    (heap : List Entry) (trades : List Trade) (positions : Positions) : MatchOut :=
  match heap with
  | [] => ⟨none, order, [], trades, positions, .heapEmpty⟩
  | (raw, bestId, bestOrder) :: rest =>
    if order.quantity ≤ 0 then
      ⟨none, order, (raw, bestId, bestOrder) :: rest, trades, positions, .orderExhausted⟩
    else
      let bestPrice := (if isBuy then 1 else -1) * raw
      if (if isBuy then bestPrice ≤ order.price else order.price ≤ bestPrice) then
        let tradeQty := min order.quantity bestOrder.quantity
        match order.execute tradeQty with
        | (.error e, order') =>
          ⟨some e, order', (raw, bestId, bestOrder) :: rest, trades, positions, .errored⟩
        | (.ok actual, order') =>
          match bestOrder.execute actual with
          | (.error e, best') =>
            ⟨some e, order', (raw, bestId, best') :: rest, trades, positions, .errored⟩
          | (.ok _, best') =>
            let rtr := record_trade bookSymbol trades positions
              (if order.side = "BUY" then order.order_id else bestOrder.order_id)
              (if order.side = "BUY" then bestOrder.order_id else order.order_id)
              bestPrice actual (some order.side)
              ((raw, bestId, bestOrder) :: rest) order
            if best'.is_filled then
              match_order bookSymbol isBuy order' rest rtr.1 rtr.2
            else
              ⟨none, order', (raw, bestId, best') :: rest, rtr.1, rtr.2, .partialRest⟩
      else
        ⟨none, order, (raw, bestId, bestOrder) :: rest, trades, positions, .noCross⟩

/-- Embedding of the OrderBook state for one symbol (the process-wide
registry, used only for reporting, is out of scope). -/
structure OrderBook where
  symbol : String
  bids : List Entry
  offers : List Entry
  trades : List Trade
  positions : Positions
deriving DecidableEq, Repr

/-- Embedding of OrderBook.__init__ with an explicit symbol (the random
default symbol is out of scope). -/
def OrderBook.make (symbol : String) : OrderBook :=
  { symbol := symbol, bids := [], offers := [], trades := [], positions := [] }

/-- Embedding of OrderBook.add_order.  Returns the call result together with
the book and the incoming order as they are when the call returns or the
exception propagates.  A foreign symbol raises SymbolMismatch before
anything is touched; a BUY matches against the offers and rests the
remainder on the bids (key is the negated price); a SELL matches against the
bids and rests the remainder on the offers (key is the price); any other
side raises UnknownSide before anything is touched. -/
def add_order (b : OrderBook) (order : Order) :
    Except ExchError Unit × OrderBook × Order :=
  if order.symbol ≠ b.symbol then (.error .symbolMismatch, b, order)
  else if order.side = "BUY" then
    let m := match_order b.symbol true order b.offers b.trades b.positions
    let b' : OrderBook :=
      { b with offers := m.heap, trades := m.trades, positions := m.positions }
    match m.err with
    | some e => (.error e, b', m.order)
    | none =>
      if m.order.is_filled then (.ok (), b', m.order)
      else
        (.ok (), { b' with
          bids := heappush b'.bids (-m.order.price, m.order.order_id, m.order) }, m.order)
  else if order.side = "SELL" then
    let m := match_order b.symbol false order b.bids b.trades b.positions
    let b' : OrderBook :=
      { b with bids := m.heap, trades := m.trades, positions := m.positions }
    match m.err with
    | some e => (.error e, b', m.order)
    | none =>
      if m.order.is_filled then (.ok (), b', m.order)
      else
        (.ok (), { b' with
          offers := heappush b'.offers (m.order.price, m.order.order_id, m.order) }, m.order)
  else (.error .unknownSide, b, order)

/-- Embedding of send_order: add the orders one at a time; an exception stops
the loop and propagates, leaving the book as it was at that point. -/
def send_order (b : OrderBook) (orders : List Order) :
    Except ExchError Unit × OrderBook :=
  match orders with
  | [] => (.ok (), b)
  | o :: os =>
    match add_order b o with
    | (.ok _, b', _) => send_order b' os
    | (.error e, b', _) => (.error e, b')

/-! ## Invariants and observation functions used by the claims -/

/-- Well-formedness of one bids entry: the key is the negated price and the
middle component is the order id. -/
def bidEntryWf (e : Entry) : Prop := e.1 = -e.2.2.price ∧ e.2.1 = e.2.2.order_id

/-- Well-formedness of one offers entry: the key is the price and the middle
component is the order id. -/
def offerEntryWf (e : Entry) : Prop := e.1 = e.2.2.price ∧ e.2.1 = e.2.2.order_id

/-- Quantity bounds of a resting order: strictly positive and no larger than
its original quantity. -/
def entryQtyWf (e : Entry) : Prop :=
  0 < e.2.2.quantity ∧ e.2.2.quantity ≤ e.2.2.original_quantity

/-- Record of the facts that hold of every trade at the moment it is
recorded, stated over the ghost fields: the opposite-side heap was nonempty
and sorted with well-formed entries for the matching side, the trade was
with the head (best) entry of that heap, the trade price is the price of
that resting order, the buy and sell ids are assigned by the side of the
incoming (aggressing) order, the quantity is the smaller of the two
remainders, and the incoming order had positive remaining quantity. -/
def tradeWf (t : Trade) : Prop :=
  ∃ raw bestId r rest,
    t.heapBefore = (raw, bestId, r) :: rest ∧
    heapSorted t.heapBefore ∧
    t.active_side = some t.incomingBefore.side ∧
    (t.incomingBefore.side = "BUY" ∨ t.incomingBefore.side = "SELL") ∧
    (t.incomingBefore.side = "BUY" → ∀ e ∈ t.heapBefore, offerEntryWf e) ∧
    (t.incomingBefore.side = "SELL" → ∀ e ∈ t.heapBefore, bidEntryWf e) ∧
    t.price = r.price ∧
    (t.incomingBefore.side = "BUY" →
      t.buy_order_id = t.incomingBefore.order_id ∧ t.sell_order_id = r.order_id) ∧
    (t.incomingBefore.side = "SELL" →
      t.sell_order_id = t.incomingBefore.order_id ∧ t.buy_order_id = r.order_id) ∧
    t.quantity = min t.incomingBefore.quantity r.quantity ∧
    0 < t.incomingBefore.quantity

/-- Signed contribution of a trade to the position, as _record_trade applies
it: +quantity when the recorded active side is BUY, -quantity when it is
SELL, 0 otherwise. -/
def tradeSigned (t : Trade) : ℤ :=
  if t.active_side = some "BUY" then t.quantity
  else if t.active_side = some "SELL" then -t.quantity else 0

/-- Signed contribution of a trade keyed by the side of the aggressor (the
incoming order), as the position claim states it. -/
def tradeAggSigned (t : Trade) : ℤ :=
  if t.incomingBefore.side = "BUY" then t.quantity else -t.quantity

/-- Sum of the recorded signed contributions of a trade list. -/
def signedSum (ts : List Trade) : ℤ := (ts.map tradeSigned).sum

/-- Sum of the aggressor-signed contributions of a trade list. -/
def aggressorSum (ts : List Trade) : ℤ := (ts.map tradeAggSigned).sum

/-- Structural invariant of a book: both heaps are sorted by (key, id), the
keys correspond to the prices (negated for bids), every recorded trade
satisfies tradeWf, and the position of the book symbol equals the signed sum
of the recorded trades. -/
def OrderBook.inv (b : OrderBook) : Prop :=
  heapSorted b.bids ∧ heapSorted b.offers ∧
  (∀ e ∈ b.bids, bidEntryWf e) ∧ (∀ e ∈ b.offers, offerEntryWf e) ∧
  (∀ t ∈ b.trades, tradeWf t) ∧
  posGet b.positions b.symbol = signedSum b.trades

/-- Quantity invariant of a book, maintained when every submitted order had a
nonnegative quantity: every resting order has positive quantity bounded by
its original quantity, and every recorded trade has quantity at least 1. -/
def OrderBook.qtyInv (b : OrderBook) : Prop :=
  (∀ e ∈ b.bids, entryQtyWf e) ∧ (∀ e ∈ b.offers, entryQtyWf e) ∧
  (∀ t ∈ b.trades, 1 ≤ t.quantity)

/-- Selector for the per-side entry well-formedness: the offers heap for an
incoming BUY, the bids heap for an incoming SELL. -/
def sideEntryWf (isBuy : Bool) (e : Entry) : Prop :=
  if isBuy then offerEntryWf e else bidEntryWf e

/-! ## Lemmas and claim theorems -/

theorem entryLe_refl (a : Entry) : entryLe a a := Or.inr ⟨rfl, le_refl _⟩

theorem entryLt_le {a b : Entry} (h : entryLt a b) : entryLe a b := by
  rcases h with h | ⟨h1, h2⟩
  · exact Or.inl h
  · exact Or.inr ⟨h1, le_of_lt h2⟩

theorem entryLe_trans {a b c : Entry} (h1 : entryLe a b) (h2 : entryLe b c) : entryLe a c := by
  rcases h1 with h1 | ⟨h1, h1b⟩ <;> rcases h2 with h2 | ⟨h2, h2b⟩
  · exact Or.inl (lt_trans h1 h2)
  · exact Or.inl (h2 ▸ h1)
  · exact Or.inl (h1 ▸ h2)
  · exact Or.inr ⟨h1.trans h2, le_trans h1b h2b⟩

theorem entryLe_of_not_lt {a b : Entry} (h : ¬ entryLt a b) : entryLe b a := by
  unfold entryLt at h
  push_neg at h
  rcases lt_or_eq_of_le h.1 with hlt | heq
  · exact Or.inl hlt
  · exact Or.inr ⟨heq, h.2 heq.symm⟩

theorem mem_heappush {x e : Entry} {l : List Entry} :
    x ∈ heappush l e ↔ x ∈ l ∨ x = e := by
  induction l with
  | nil => simp [heappush]
  | cons h t ih =>
    by_cases hc : entryLt e h
    · simp [heappush, hc]
      tauto
    · simp [heappush, hc, ih]
      tauto

theorem heappush_sorted {l : List Entry} (e : Entry) (hs : heapSorted l) :
    heapSorted (heappush l e) := by
  induction l with
  | nil => simp [heappush, heapSorted]
  | cons h t ih =>
    rw [heapSorted, List.pairwise_cons] at hs
    by_cases hc : entryLt e h
    · rw [heappush]
      simp only [hc, if_pos]
      rw [heapSorted, List.pairwise_cons]
      constructor
      · intro x hx
        rcases List.mem_cons.1 hx with rfl | hx
        · exact entryLt_le hc
        · exact entryLe_trans (entryLt_le hc) (hs.1 x hx)
      · rw [heapSorted, List.pairwise_cons] at *
        exact ⟨hs.1, hs.2⟩
    · rw [heappush]
      simp only [hc, if_neg, ite_false]
      rw [heapSorted, List.pairwise_cons]
      constructor
      · intro x hx
        rcases mem_heappush.1 hx with hx | rfl
        · exact hs.1 x hx
        · exact entryLe_of_not_lt hc
      · exact ih hs.2

-- no-op lemma for zero quantity
theorem match_order_noop (sym : String) (isBuy : Bool) (order : Order)
    (heap : List Entry) (trades : List Trade) (ps : Positions)
    (hq : order.quantity ≤ 0) :
    (match_order sym isBuy order heap trades ps).err = none ∧
    (match_order sym isBuy order heap trades ps).order = order ∧
    (match_order sym isBuy order heap trades ps).heap = heap ∧
    (match_order sym isBuy order heap trades ps).trades = trades ∧
    (match_order sym isBuy order heap trades ps).positions = ps := by
  cases heap with
  | nil => simp [match_order]
  | cons h t =>
    obtain ⟨raw, bestId, bestOrder⟩ := h
    simp [match_order, hq]




theorem execute_ok_inv {o o' : Order} {q a : ℤ} (h : o.execute q = (.ok a, o')) :
    0 < q ∧ a = min q o.quantity ∧ o' = { o with quantity := o.quantity - a } := by
  unfold Order.execute at h
  by_cases hq : q ≤ 0
  · simp [hq] at h
  · simp [hq] at h
    exact ⟨lt_of_not_le hq, h.1.symm, by simp [← h.1, ← h.2]⟩

theorem execute_error_inv {o o' : Order} {q : ℤ} {e : ExchError}
    (h : o.execute q = (.error e, o')) :
    q ≤ 0 ∧ o' = o ∧ e = .invalidArgument := by
  unfold Order.execute at h
  by_cases hq : q ≤ 0
  · simp [hq] at h
    exact ⟨hq, h.2.symm, h.1.symm⟩
  · simp [hq] at h

theorem match_order_nil (sym : String) (isBuy : Bool) (order : Order)
    (trades : List Trade) (ps : Positions) :
    match_order sym isBuy order [] trades ps =
      ⟨none, order, [], trades, ps, .heapEmpty⟩ := by
  simp [match_order]

theorem match_order_exhausted (sym : String) (isBuy : Bool) (order : Order)
    (raw bestId : ℤ) (bestOrder : Order) (rest : List Entry)
    (trades : List Trade) (ps : Positions) (hq : order.quantity ≤ 0) :
    match_order sym isBuy order ((raw, bestId, bestOrder) :: rest) trades ps =
      ⟨none, order, (raw, bestId, bestOrder) :: rest, trades, ps, .orderExhausted⟩ := by
  simp [match_order, hq]

theorem match_order_nocross (sym : String) (isBuy : Bool) (order : Order)
    (raw bestId : ℤ) (bestOrder : Order) (rest : List Entry)
    (trades : List Trade) (ps : Positions) (hq : ¬ order.quantity ≤ 0)
    (hc : ¬ (if isBuy then (if isBuy then (1:ℤ) else -1) * raw ≤ order.price
             else order.price ≤ (if isBuy then (1:ℤ) else -1) * raw)) :
    match_order sym isBuy order ((raw, bestId, bestOrder) :: rest) trades ps =
      ⟨none, order, (raw, bestId, bestOrder) :: rest, trades, ps, .noCross⟩ := by
  simp only [match_order, hq, if_false, ite_false, if_neg hc]





theorem match_order_err1 (sym : String) (isBuy : Bool) (order : Order)
    (raw bestId : ℤ) (bestOrder : Order) (rest : List Entry)
    (trades : List Trade) (ps : Positions) (e : ExchError) (o' : Order)
    (hq : ¬ order.quantity ≤ 0)
    (hc : (if isBuy then (if isBuy then (1:ℤ) else -1) * raw ≤ order.price
             else order.price ≤ (if isBuy then (1:ℤ) else -1) * raw))
    (hx : order.execute (min order.quantity bestOrder.quantity) = (.error e, o')) :
    match_order sym isBuy order ((raw, bestId, bestOrder) :: rest) trades ps =
      ⟨some e, o', (raw, bestId, bestOrder) :: rest, trades, ps, .errored⟩ := by
  simp only [match_order, hq, if_false, ite_false, if_pos hc, hx]

theorem match_order_err2 (sym : String) (isBuy : Bool) (order : Order)
    (raw bestId : ℤ) (bestOrder : Order) (rest : List Entry)
    (trades : List Trade) (ps : Positions) (a : ℤ) (o' : Order) (e : ExchError) (b' : Order)
    (hq : ¬ order.quantity ≤ 0)
    (hc : (if isBuy then (if isBuy then (1:ℤ) else -1) * raw ≤ order.price
             else order.price ≤ (if isBuy then (1:ℤ) else -1) * raw))
    (hx1 : order.execute (min order.quantity bestOrder.quantity) = (.ok a, o'))
    (hx2 : bestOrder.execute a = (.error e, b')) :
    match_order sym isBuy order ((raw, bestId, bestOrder) :: rest) trades ps =
      ⟨some e, o', (raw, bestId, b') :: rest, trades, ps, .errored⟩ := by
  simp only [match_order, hq, if_false, ite_false, if_pos hc, hx1, hx2]

theorem match_order_filled (sym : String) (isBuy : Bool) (order : Order)
    (raw bestId : ℤ) (bestOrder : Order) (rest : List Entry)
    (trades : List Trade) (ps : Positions) (a a2 : ℤ) (o' b' : Order)
    (hq : ¬ order.quantity ≤ 0)
    (hc : (if isBuy then (if isBuy then (1:ℤ) else -1) * raw ≤ order.price
             else order.price ≤ (if isBuy then (1:ℤ) else -1) * raw))
    (hx1 : order.execute (min order.quantity bestOrder.quantity) = (.ok a, o'))
    (hx2 : bestOrder.execute a = (.ok a2, b'))
    (hf : b'.is_filled = true) :
    match_order sym isBuy order ((raw, bestId, bestOrder) :: rest) trades ps =
      match_order sym isBuy o' rest
        (record_trade sym trades ps
          (if order.side = "BUY" then order.order_id else bestOrder.order_id)
          (if order.side = "BUY" then bestOrder.order_id else order.order_id)
          ((if isBuy then (1:ℤ) else -1) * raw) a (some order.side)
          ((raw, bestId, bestOrder) :: rest) order).1
        (record_trade sym trades ps
          (if order.side = "BUY" then order.order_id else bestOrder.order_id)
          (if order.side = "BUY" then bestOrder.order_id else order.order_id)
          ((if isBuy then (1:ℤ) else -1) * raw) a (some order.side)
          ((raw, bestId, bestOrder) :: rest) order).2 := by
  simp only [match_order, hq, if_false, ite_false, if_pos hc, hx1, hx2, hf, if_true]

theorem match_order_partialFill (sym : String) (isBuy : Bool) (order : Order)
    (raw bestId : ℤ) (bestOrder : Order) (rest : List Entry)
    (trades : List Trade) (ps : Positions) (a a2 : ℤ) (o' b' : Order)
    (hq : ¬ order.quantity ≤ 0)
    (hc : (if isBuy then (if isBuy then (1:ℤ) else -1) * raw ≤ order.price
             else order.price ≤ (if isBuy then (1:ℤ) else -1) * raw))
    (hx1 : order.execute (min order.quantity bestOrder.quantity) = (.ok a, o'))
    (hx2 : bestOrder.execute a = (.ok a2, b'))
    (hf : ¬ b'.is_filled = true) :
    match_order sym isBuy order ((raw, bestId, bestOrder) :: rest) trades ps =
      ⟨none, o', (raw, bestId, b') :: rest,
        (record_trade sym trades ps
          (if order.side = "BUY" then order.order_id else bestOrder.order_id)
          (if order.side = "BUY" then bestOrder.order_id else order.order_id)
          ((if isBuy then (1:ℤ) else -1) * raw) a (some order.side)
          ((raw, bestId, bestOrder) :: rest) order).1,
        (record_trade sym trades ps
          (if order.side = "BUY" then order.order_id else bestOrder.order_id)
          (if order.side = "BUY" then bestOrder.order_id else order.order_id)
          ((if isBuy then (1:ℤ) else -1) * raw) a (some order.side)
          ((raw, bestId, bestOrder) :: rest) order).2, .partialRest⟩ := by
  simp only [match_order, hq, if_false, ite_false, if_pos hc, hx1, hx2, hf]
  simp




theorem record_trade_tradeWf (isBuy : Bool) (order bestOrder : Order) (raw bestId : ℤ)
    (rest : List Entry) (sym : String) (a : ℤ) (trades : List Trade) (ps : Positions)
    (hs : heapSorted ((raw, bestId, bestOrder) :: rest))
    (hw : ∀ e ∈ (raw, bestId, bestOrder) :: rest, sideEntryWf isBuy e)
    (hside : order.side = (if isBuy then "BUY" else "SELL"))
    (hq : 0 < order.quantity)
    (ha : a = min order.quantity bestOrder.quantity)
    (ht : ∀ t ∈ trades, tradeWf t) :
    ∀ t ∈ (record_trade sym trades ps
      (if order.side = "BUY" then order.order_id else bestOrder.order_id)
      (if order.side = "BUY" then bestOrder.order_id else order.order_id)
      ((if isBuy then (1:ℤ) else -1) * raw) a (some order.side)
      ((raw, bestId, bestOrder) :: rest) order).1, tradeWf t := by
  intro t htm
  simp only [record_trade, List.mem_append, List.mem_singleton] at htm
  rcases htm with htm | rfl
  · exact ht t htm
  have hhead := hw _ (List.mem_cons_self _ _)
  cases isBuy with
  | true =>
    simp at hside
    have h1 : raw = bestOrder.price := hhead.1
    refine ⟨raw, bestId, bestOrder, rest, rfl, hs, rfl, Or.inl hside, ?_, ?_, ?_, ?_, ?_, ?_, ?_⟩
    · intro _ e he
      have := hw e he
      simpa [sideEntryWf] using this
    · intro hcon
      simp [hside] at hcon
    · simp [h1]
    · intro _
      simp [hside]
    · intro hcon
      simp [hside] at hcon
    · exact ha
    · exact hq
  | false =>
    simp at hside
    have h1 : raw = -bestOrder.price := hhead.1
    refine ⟨raw, bestId, bestOrder, rest, rfl, hs, rfl, Or.inr hside, ?_, ?_, ?_, ?_, ?_, ?_, ?_⟩
    · intro hcon
      simp [hside] at hcon
    · intro _ e he
      have := hw e he
      simpa [sideEntryWf] using this
    · simp [h1]
    · intro hcon
      simp [hside] at hcon
    · intro _
      simp [hside]
    · exact ha
    · exact hq




theorem execute_fields {o o' : Order} {q : ℤ} {r : Except ExchError ℤ}
    (h : o.execute q = (r, o')) :
    o'.side = o.side ∧ o'.price = o.price ∧ o'.order_id = o.order_id ∧
    o'.original_quantity = o.original_quantity := by
  cases r with
  | error e =>
    obtain ⟨-, rfl, -⟩ := execute_error_inv h
    exact ⟨rfl, rfl, rfl, rfl⟩
  | ok a =>
    obtain ⟨-, -, rfl⟩ := execute_ok_inv h
    exact ⟨rfl, rfl, rfl, rfl⟩

theorem match_order_wf (sym : String) (isBuy : Bool) :
    ∀ (order : Order) (heap : List Entry) (trades : List Trade) (ps : Positions),
    heapSorted heap → (∀ e ∈ heap, sideEntryWf isBuy e) →
    order.side = (if isBuy then "BUY" else "SELL") → (∀ t ∈ trades, tradeWf t) →
    (heapSorted (match_order sym isBuy order heap trades ps).heap ∧
     (∀ e ∈ (match_order sym isBuy order heap trades ps).heap, sideEntryWf isBuy e) ∧
     (∀ t ∈ (match_order sym isBuy order heap trades ps).trades, tradeWf t)) ∧
    ((match_order sym isBuy order heap trades ps).order.side = order.side ∧
     (match_order sym isBuy order heap trades ps).order.price = order.price ∧
     (match_order sym isBuy order heap trades ps).order.order_id = order.order_id ∧
     (match_order sym isBuy order heap trades ps).order.original_quantity = order.original_quantity ∧
     (match_order sym isBuy order heap trades ps).order.quantity ≤ order.quantity) := by
  intro order heap trades ps
  induction order, heap, trades, ps using match_order.induct sym isBuy with
  | case1 order trades ps =>
    intro hs hw hside ht
    rw [match_order_nil]
    exact ⟨⟨by simp [heapSorted], by simp, ht⟩, rfl, rfl, rfl, rfl, le_refl _⟩
  | case2 order trades ps raw bestId bestOrder rest hq =>
    intro hs hw hside ht
    rw [match_order_exhausted sym isBuy order raw bestId bestOrder rest trades ps hq]
    exact ⟨⟨hs, hw, ht⟩, rfl, rfl, rfl, rfl, le_refl _⟩
  | case3 order trades ps raw bestId bestOrder rest hq bp hc tq e o' hx =>
    intro hs hw hside ht
    rw [match_order_err1 sym isBuy order raw bestId bestOrder rest trades ps e o' hq hc hx]
    obtain ⟨-, rfl, -⟩ := execute_error_inv hx
    exact ⟨⟨hs, hw, ht⟩, rfl, rfl, rfl, rfl, le_refl _⟩
  | case4 order trades ps raw bestId bestOrder rest hq bp hc tq a o' hx1 e b' hx2 =>
    intro hs hw hside ht
    exfalso
    obtain ⟨htq, ha, -⟩ := execute_ok_inv hx1
    obtain ⟨ha2, -, -⟩ := execute_error_inv hx2
    omega
  | case5 order trades ps raw bestId bestOrder rest hq bp hc tq a o' hx1 a2 b' hx2 rtr hf ih =>
    intro hs hw hside ht
    rw [match_order_filled sym isBuy order raw bestId bestOrder rest trades ps a a2 o' b' hq hc hx1 hx2 hf]
    obtain ⟨hsf, hpf, hif, hof⟩ := execute_fields hx1
    obtain ⟨htq, ha, ho'⟩ := execute_ok_inv hx1
    have hs' : heapSorted rest := (List.pairwise_cons.1 hs).2
    have hw' : ∀ e ∈ rest, sideEntryWf isBuy e := fun e he => hw e (List.mem_cons_of_mem _ he)
    have hside' : o'.side = (if isBuy then "BUY" else "SELL") := by rw [hsf, hside]
    have ht' := record_trade_tradeWf isBuy order bestOrder raw bestId rest sym a trades ps
      hs hw hside (by omega) (by omega) ht
    obtain ⟨hA, hB⟩ := ih hs' hw' hside' ht'
    refine ⟨hA, ?_⟩
    obtain ⟨h1, h2, h3, h4, h5⟩ := hB
    have hq' : o'.quantity ≤ order.quantity := by
      rw [ho']; simp; omega
    exact ⟨h1.trans hsf, h2.trans hpf, h3.trans hif, h4.trans hof, h5.trans hq'⟩
  | case6 order trades ps raw bestId bestOrder rest hq bp hc tq a o' hx1 a2 b' hx2 hf =>
    intro hs hw hside ht
    rw [match_order_partialFill sym isBuy order raw bestId bestOrder rest trades ps a a2 o' b' hq hc hx1 hx2 hf]
    obtain ⟨htq, ha, ho'⟩ := execute_ok_inv hx1
    obtain ⟨htb, hab, hb'⟩ := execute_ok_inv hx2
    have hs2 : heapSorted ((raw, bestId, b') :: rest) := by
      rw [heapSorted, List.pairwise_cons] at hs ⊢
      exact ⟨fun x hx => hs.1 x hx, hs.2⟩
    have hw2 : ∀ e ∈ (raw, bestId, b') :: rest, sideEntryWf isBuy e := by
      intro e he
      rcases List.mem_cons.1 he with rfl | he
      · have := hw _ (List.mem_cons_self _ _)
        subst hb'
        cases isBuy <;> simpa [sideEntryWf, offerEntryWf, bidEntryWf] using this
      · exact hw e (List.mem_cons_of_mem _ he)
    have ht' := record_trade_tradeWf isBuy order bestOrder raw bestId rest sym a trades ps
      hs hw hside (by omega) (by omega) ht
    refine ⟨⟨hs2, hw2, ht'⟩, ?_⟩
    have hq' : o'.quantity ≤ order.quantity := by rw [ho']; simp; omega
    obtain ⟨hsf, hpf, hif, hof⟩ := execute_fields hx1
    exact ⟨hsf, hpf, hif, hof, hq'⟩
  | case7 order trades ps raw bestId bestOrder rest hq bp hc =>
    intro hs hw hside ht
    rw [match_order_nocross sym isBuy order raw bestId bestOrder rest trades ps hq hc]
    exact ⟨⟨hs, hw, ht⟩, rfl, rfl, rfl, rfl, le_refl _⟩



theorem is_filled_iff {o : Order} : o.is_filled = true ↔ o.quantity = 0 := by
  simp [Order.is_filled]

theorem posGet_posSet (ps : Positions) (s : String) (v : ℤ) :
    posGet (posSet ps s v) s = v := by
  induction ps with
  | nil => simp [posSet, posGet]
  | cons h t ih =>
    obtain ⟨k, w⟩ := h
    by_cases hk : k = s
    · simp [posSet, posGet, hk]
    · simp [posSet, posGet, hk, ih]

theorem signedSum_append (ts : List Trade) (t : Trade) :
    signedSum (ts ++ [t]) = signedSum ts + tradeSigned t := by
  simp [signedSum]

theorem match_order_qty (sym : String) (isBuy : Bool) :
    ∀ (order : Order) (heap : List Entry) (trades : List Trade) (ps : Positions),
    (∀ e ∈ heap, entryQtyWf e) → 0 ≤ order.quantity → (∀ t ∈ trades, 1 ≤ t.quantity) →
    (∀ e ∈ (match_order sym isBuy order heap trades ps).heap, entryQtyWf e) ∧
    (∀ t ∈ (match_order sym isBuy order heap trades ps).trades, 1 ≤ t.quantity) ∧
    0 ≤ (match_order sym isBuy order heap trades ps).order.quantity := by
  intro order heap trades ps
  induction order, heap, trades, ps using match_order.induct sym isBuy with
  | case1 order trades ps =>
    intro hq ho ht
    rw [match_order_nil]
    exact ⟨by simp, ht, ho⟩
  | case2 order trades ps raw bestId bestOrder rest hqz =>
    intro hq ho ht
    rw [match_order_exhausted sym isBuy order raw bestId bestOrder rest trades ps hqz]
    exact ⟨hq, ht, ho⟩
  | case3 order trades ps raw bestId bestOrder rest hqz bp hc tq e o' hx =>
    intro hq ho ht
    rw [match_order_err1 sym isBuy order raw bestId bestOrder rest trades ps e o' hqz hc hx]
    obtain ⟨-, rfl, -⟩ := execute_error_inv hx
    exact ⟨hq, ht, ho⟩
  | case4 order trades ps raw bestId bestOrder rest hqz bp hc tq a o' hx1 e b' hx2 =>
    intro hq ho ht
    exfalso
    obtain ⟨htq, ha, -⟩ := execute_ok_inv hx1
    obtain ⟨ha2, -, -⟩ := execute_error_inv hx2
    omega
  | case5 order trades ps raw bestId bestOrder rest hqz bp hc tq a o' hx1 a2 b' hx2 rtr hf ih =>
    intro hq ho ht
    rw [match_order_filled sym isBuy order raw bestId bestOrder rest trades ps a a2 o' b' hqz hc hx1 hx2 hf]
    obtain ⟨htq, ha, ho'⟩ := execute_ok_inv hx1
    have hbest := hq _ (List.mem_cons_self _ _)
    have hbq : 0 < bestOrder.quantity := hbest.1
    have hq' : ∀ e ∈ rest, entryQtyWf e := fun e he => hq e (List.mem_cons_of_mem _ he)
    have ho2 : 0 ≤ o'.quantity := by rw [ho']; simp; omega
    have ht' : ∀ t ∈ (record_trade sym trades ps
        (if order.side = "BUY" then order.order_id else bestOrder.order_id)
        (if order.side = "BUY" then bestOrder.order_id else order.order_id)
        ((if isBuy then (1:ℤ) else -1) * raw) a (some order.side)
        ((raw, bestId, bestOrder) :: rest) order).1, 1 ≤ t.quantity := by
      intro t htm
      simp only [record_trade, List.mem_append, List.mem_singleton] at htm
      rcases htm with htm | rfl
      · exact ht t htm
      · show (1:ℤ) ≤ a
        omega
    exact ih hq' ho2 ht'
  | case6 order trades ps raw bestId bestOrder rest hqz bp hc tq a o' hx1 a2 b' hx2 hf =>
    intro hq ho ht
    rw [match_order_partialFill sym isBuy order raw bestId bestOrder rest trades ps a a2 o' b' hqz hc hx1 hx2 hf]
    obtain ⟨htq, ha, ho'⟩ := execute_ok_inv hx1
    obtain ⟨-, ha2, hb'⟩ := execute_ok_inv hx2
    have hbest := hq _ (List.mem_cons_self _ _)
    have hbq : 0 < bestOrder.quantity := hbest.1
    have hbo : bestOrder.quantity ≤ bestOrder.original_quantity := hbest.2
    have hbne : b'.quantity ≠ 0 := fun hcon => hf (is_filled_iff.2 hcon)
    refine ⟨?_, ?_, ?_⟩
    · intro e he
      rcases List.mem_cons.1 he with rfl | he
      · constructor
        · show (0:ℤ) < b'.quantity
          rw [hb']; rw [hb'] at hbne; simp at hbne ⊢; omega
        · show b'.quantity ≤ b'.original_quantity
          rw [hb']; simp; omega
      · exact hq e (List.mem_cons_of_mem _ he)
    · intro t htm
      simp only [record_trade, List.mem_append, List.mem_singleton] at htm
      rcases htm with htm | rfl
      · exact ht t htm
      · show (1:ℤ) ≤ a
        omega
    · show 0 ≤ o'.quantity
      rw [ho']; simp; omega
  | case7 order trades ps raw bestId bestOrder rest hqz bp hc =>
    intro hq ho ht
    rw [match_order_nocross sym isBuy order raw bestId bestOrder rest trades ps hqz hc]
    exact ⟨hq, ht, ho⟩



theorem match_order_pos (sym : String) (isBuy : Bool) :
    ∀ (order : Order) (heap : List Entry) (trades : List Trade) (ps : Positions),
    order.side = (if isBuy then "BUY" else "SELL") →
    posGet ps sym = signedSum trades →
    posGet (match_order sym isBuy order heap trades ps).positions sym =
      signedSum (match_order sym isBuy order heap trades ps).trades := by
  intro order heap trades ps
  induction order, heap, trades, ps using match_order.induct sym isBuy with
  | case1 order trades ps =>
    intro hside hp
    rw [match_order_nil]
    exact hp
  | case2 order trades ps raw bestId bestOrder rest hqz =>
    intro hside hp
    rw [match_order_exhausted sym isBuy order raw bestId bestOrder rest trades ps hqz]
    exact hp
  | case3 order trades ps raw bestId bestOrder rest hqz bp hc tq e o' hx =>
    intro hside hp
    rw [match_order_err1 sym isBuy order raw bestId bestOrder rest trades ps e o' hqz hc hx]
    exact hp
  | case4 order trades ps raw bestId bestOrder rest hqz bp hc tq a o' hx1 e b' hx2 =>
    intro hside hp
    exfalso
    obtain ⟨htq, ha, -⟩ := execute_ok_inv hx1
    obtain ⟨ha2, -, -⟩ := execute_error_inv hx2
    omega
  | case5 order trades ps raw bestId bestOrder rest hqz bp hc tq a o' hx1 a2 b' hx2 rtr hf ih =>
    intro hside hp
    rw [match_order_filled sym isBuy order raw bestId bestOrder rest trades ps a a2 o' b' hqz hc hx1 hx2 hf]
    have hsf : o'.side = order.side := (execute_fields hx1).1
    refine ih (by rw [hsf, hside]) ?_
    show posGet (record_trade sym trades ps
        (if order.side = "BUY" then order.order_id else bestOrder.order_id)
        (if order.side = "BUY" then bestOrder.order_id else order.order_id)
        ((if isBuy then (1:ℤ) else -1) * raw) a (some order.side)
        ((raw, bestId, bestOrder) :: rest) order).2 sym = signedSum (record_trade sym trades ps
        (if order.side = "BUY" then order.order_id else bestOrder.order_id)
        (if order.side = "BUY" then bestOrder.order_id else order.order_id)
        ((if isBuy then (1:ℤ) else -1) * raw) a (some order.side)
        ((raw, bestId, bestOrder) :: rest) order).1
    cases isBuy with
    | true =>
      have hside' : order.side = "BUY" := by simpa using hside
      simp [record_trade, hside', signedSum_append, posGet_posSet, tradeSigned, hp,
        sub_eq_add_neg]
    | false =>
      have hside' : order.side = "SELL" := by simpa using hside
      simp [record_trade, hside', signedSum_append, posGet_posSet, tradeSigned, hp,
        sub_eq_add_neg]
  | case6 order trades ps raw bestId bestOrder rest hqz bp hc tq a o' hx1 a2 b' hx2 hf =>
    intro hside hp
    rw [match_order_partialFill sym isBuy order raw bestId bestOrder rest trades ps a a2 o' b' hqz hc hx1 hx2 hf]
    cases isBuy with
    | true =>
      have hside' : order.side = "BUY" := by simpa using hside
      simp [record_trade, hside', signedSum_append, posGet_posSet, tradeSigned, hp,
        sub_eq_add_neg]
    | false =>
      have hside' : order.side = "SELL" := by simpa using hside
      simp [record_trade, hside', signedSum_append, posGet_posSet, tradeSigned, hp,
        sub_eq_add_neg]
  | case7 order trades ps raw bestId bestOrder rest hqz bp hc =>
    intro hside hp
    rw [match_order_nocross sym isBuy order raw bestId bestOrder rest trades ps hqz hc]
    exact hp

/-- C3: whenever the matching loop stops because a resting order was only
partially consumed (exit reason partialRest), and every resting order on the
heap had positive quantity, the incoming order has remaining quantity
exactly 0 at that moment. -/
theorem claim3_partial_stop_exhausts_incoming (sym : String) (isBuy : Bool) :
    ∀ (order : Order) (heap : List Entry) (trades : List Trade) (ps : Positions),
    (∀ e ∈ heap, 0 < e.2.2.quantity) →
    (match_order sym isBuy order heap trades ps).reason = ExitReason.partialRest →
    (match_order sym isBuy order heap trades ps).order.quantity = 0 := by
  intro order heap trades ps
  induction order, heap, trades, ps using match_order.induct sym isBuy with
  | case1 order trades ps =>
    intro hq hr
    rw [match_order_nil] at hr
    simp at hr
  | case2 order trades ps raw bestId bestOrder rest hqz =>
    intro hq hr
    rw [match_order_exhausted sym isBuy order raw bestId bestOrder rest trades ps hqz] at hr
    simp at hr
  | case3 order trades ps raw bestId bestOrder rest hqz bp hc tq e o' hx =>
    intro hq hr
    rw [match_order_err1 sym isBuy order raw bestId bestOrder rest trades ps e o' hqz hc hx] at hr
    simp at hr
  | case4 order trades ps raw bestId bestOrder rest hqz bp hc tq a o' hx1 e b' hx2 =>
    intro hq hr
    exfalso
    obtain ⟨htq, ha, -⟩ := execute_ok_inv hx1
    obtain ⟨ha2, -, -⟩ := execute_error_inv hx2
    omega
  | case5 order trades ps raw bestId bestOrder rest hqz bp hc tq a o' hx1 a2 b' hx2 rtr hf ih =>
    intro hq hr
    rw [match_order_filled sym isBuy order raw bestId bestOrder rest trades ps a a2 o' b' hqz hc hx1 hx2 hf] at hr ⊢
    exact ih (fun e he => hq e (List.mem_cons_of_mem _ he)) hr
  | case6 order trades ps raw bestId bestOrder rest hqz bp hc tq a o' hx1 a2 b' hx2 hf =>
    intro hq hr
    rw [match_order_partialFill sym isBuy order raw bestId bestOrder rest trades ps a a2 o' b' hqz hc hx1 hx2 hf]
    obtain ⟨htq, ha, ho'⟩ := execute_ok_inv hx1
    obtain ⟨-, ha2, hb'⟩ := execute_ok_inv hx2
    have hbq : 0 < bestOrder.quantity := hq _ (List.mem_cons_self _ _)
    have hbne : b'.quantity ≠ 0 := fun hcon => hf (is_filled_iff.2 hcon)
    have htqd : tq = order.quantity ⊓ bestOrder.quantity := rfl
    have hbv : bestOrder.quantity - a2 ≠ 0 := by
      rw [hb'] at hbne
      simpa using hbne
    show o'.quantity = 0
    rw [ho']
    simp
    omega
  | case7 order trades ps raw bestId bestOrder rest hqz bp hc =>
    intro hq hr
    rw [match_order_nocross sym isBuy order raw bestId bestOrder rest trades ps hqz hc] at hr
    simp at hr



theorem sideEntryWf_true {e : Entry} : sideEntryWf true e ↔ offerEntryWf e := by
  simp [sideEntryWf]

theorem sideEntryWf_false {e : Entry} : sideEntryWf false e ↔ bidEntryWf e := by
  simp [sideEntryWf]

theorem add_order_inv_proj (b : OrderBook) (o : Order) (hb : b.inv) :
    (add_order b o).2.1.inv := by
  obtain ⟨hbs, hos, hbw, how, htw, hpos⟩ := hb
  unfold add_order
  by_cases hsy : o.symbol ≠ b.symbol
  · simp only [if_pos hsy]
    exact ⟨hbs, hos, hbw, how, htw, hpos⟩
  · simp only [if_neg hsy]
    by_cases hbuy : o.side = "BUY"
    · simp only [if_pos hbuy]
      have hw : ∀ e ∈ b.offers, sideEntryWf true e := fun e he => sideEntryWf_true.2 (how e he)
      obtain ⟨⟨ws, ww, wt⟩, wside, wprice, wid, worig, wq⟩ :=
        match_order_wf b.symbol true o b.offers b.trades b.positions hos hw (by simpa using hbuy) htw
      have wpos := match_order_pos b.symbol true o b.offers b.trades b.positions
        (by simpa using hbuy) hpos
      rcases hme : (match_order b.symbol true o b.offers b.trades b.positions).err with - | e
      · simp only [hme]
        by_cases hf : (match_order b.symbol true o b.offers b.trades b.positions).order.is_filled
        · simp only [hf, if_pos, ite_true]
          exact ⟨hbs, ws, hbw, fun e he => sideEntryWf_true.1 (ww e he), wt, wpos⟩
        · simp only [hf, if_neg, ite_false]
          refine ⟨heappush_sorted _ hbs, ws, ?_, fun e he => sideEntryWf_true.1 (ww e he), wt, wpos⟩
          intro e he
          rcases mem_heappush.1 he with he | rfl
          · exact hbw e he
          · exact ⟨rfl, rfl⟩
      · simp only [hme]
        exact ⟨hbs, ws, hbw, fun e he => sideEntryWf_true.1 (ww e he), wt, wpos⟩
    · by_cases hsell : o.side = "SELL"
      · simp only [if_neg hbuy, if_pos hsell]
        have hw : ∀ e ∈ b.bids, sideEntryWf false e := fun e he => sideEntryWf_false.2 (hbw e he)
        obtain ⟨⟨ws, ww, wt⟩, wside, wprice, wid, worig, wq⟩ :=
          match_order_wf b.symbol false o b.bids b.trades b.positions hbs hw (by simpa using hsell) htw
        have wpos := match_order_pos b.symbol false o b.bids b.trades b.positions
          (by simpa using hsell) hpos
        rcases hme : (match_order b.symbol false o b.bids b.trades b.positions).err with - | e
        · simp only [hme]
          by_cases hf : (match_order b.symbol false o b.bids b.trades b.positions).order.is_filled
          · simp only [hf, if_pos, ite_true]
            exact ⟨ws, hos, fun e he => sideEntryWf_false.1 (ww e he), how, wt, wpos⟩
          · simp only [hf, if_neg, ite_false]
            refine ⟨ws, heappush_sorted _ hos, fun e he => sideEntryWf_false.1 (ww e he), ?_, wt, wpos⟩
            intro e he
            rcases mem_heappush.1 he with he | rfl
            · exact how e he
            · exact ⟨rfl, rfl⟩
        · simp only [hme]
          exact ⟨ws, hos, fun e he => sideEntryWf_false.1 (ww e he), how, wt, wpos⟩
      · simp only [if_neg hbuy, if_neg hsell]
        exact ⟨hbs, hos, hbw, how, htw, hpos⟩



theorem add_order_qtyInv_proj (b : OrderBook) (o : Order) (hb : b.inv) (hq : b.qtyInv)
    (ho : 0 ≤ o.quantity) (hoo : o.quantity ≤ o.original_quantity) :
    (add_order b o).2.1.qtyInv := by
  obtain ⟨hbs, hos, hbw, how, htw, hpos⟩ := hb
  obtain ⟨hqb, hqo, hqt⟩ := hq
  unfold add_order
  by_cases hsy : o.symbol ≠ b.symbol
  · simp only [if_pos hsy]
    exact ⟨hqb, hqo, hqt⟩
  · simp only [if_neg hsy]
    by_cases hbuy : o.side = "BUY"
    · simp only [if_pos hbuy]
      have hw : ∀ e ∈ b.offers, sideEntryWf true e := fun e he => sideEntryWf_true.2 (how e he)
      obtain ⟨⟨ws, ww, wt⟩, wside, wprice, wid, worig, wqle⟩ :=
        match_order_wf b.symbol true o b.offers b.trades b.positions hos hw (by simpa using hbuy) htw
      obtain ⟨qw, qt, qo⟩ := match_order_qty b.symbol true o b.offers b.trades b.positions
        (fun e he => hqo e he) ho hqt
      rcases hme : (match_order b.symbol true o b.offers b.trades b.positions).err with - | e
      · simp only [hme]
        by_cases hf : (match_order b.symbol true o b.offers b.trades b.positions).order.is_filled
        · simp only [hf, if_pos, ite_true]
          exact ⟨hqb, qw, qt⟩
        · simp only [hf, if_neg, ite_false]
          refine ⟨?_, qw, qt⟩
          intro e he
          rcases mem_heappush.1 he with he | rfl
          · exact hqb e he
          · have hne : (match_order b.symbol true o b.offers b.trades b.positions).order.quantity ≠ 0 :=
              fun hcon => hf (is_filled_iff.2 hcon)
            exact ⟨by simp; omega, by simp; omega⟩
      · simp only [hme]
        exact ⟨hqb, qw, qt⟩
    · by_cases hsell : o.side = "SELL"
      · simp only [if_neg hbuy, if_pos hsell]
        have hw : ∀ e ∈ b.bids, sideEntryWf false e := fun e he => sideEntryWf_false.2 (hbw e he)
        obtain ⟨⟨ws, ww, wt⟩, wside, wprice, wid, worig, wqle⟩ :=
          match_order_wf b.symbol false o b.bids b.trades b.positions hbs hw (by simpa using hsell) htw
        obtain ⟨qw, qt, qo⟩ := match_order_qty b.symbol false o b.bids b.trades b.positions
          (fun e he => hqb e he) ho hqt
        rcases hme : (match_order b.symbol false o b.bids b.trades b.positions).err with - | e
        · simp only [hme]
          by_cases hf : (match_order b.symbol false o b.bids b.trades b.positions).order.is_filled
          · simp only [hf, if_pos, ite_true]
            exact ⟨qw, hqo, qt⟩
          · simp only [hf, if_neg, ite_false]
            refine ⟨qw, ?_, qt⟩
            intro e he
            rcases mem_heappush.1 he with he | rfl
            · exact hqo e he
            · have hne : (match_order b.symbol false o b.bids b.trades b.positions).order.quantity ≠ 0 :=
                fun hcon => hf (is_filled_iff.2 hcon)
              exact ⟨by simp; omega, by simp; omega⟩
        · simp only [hme]
          exact ⟨qw, hqo, qt⟩
      · simp only [if_neg hbuy, if_neg hsell]
        exact ⟨hqb, hqo, hqt⟩

theorem add_order_inv {b : OrderBook} {o : Order} {res : Except ExchError Unit}
    {b' : OrderBook} {o' : Order} (hb : b.inv) (h : add_order b o = (res, b', o')) :
    b'.inv := by
  have hm := add_order_inv_proj b o hb
  rw [h] at hm
  exact hm

theorem add_order_qtyInv {b : OrderBook} {o : Order} {res : Except ExchError Unit}
    {b' : OrderBook} {o' : Order} (hb : b.inv) (hq : b.qtyInv)
    (ho : 0 ≤ o.quantity) (hoo : o.quantity ≤ o.original_quantity)
    (h : add_order b o = (res, b', o')) : b'.qtyInv := by
  have hm := add_order_qtyInv_proj b o hb hq ho hoo
  rw [h] at hm
  exact hm

theorem send_order_inv (os : List Order) :
    ∀ b : OrderBook, b.inv → (send_order b os).2.inv := by
  induction os with
  | nil =>
    intro b hb
    simpa [send_order] using hb
  | cons o os ih =>
    intro b hb
    rw [send_order]
    rcases ha : add_order b o with ⟨res, b', o'⟩
    have hb' : b'.inv := add_order_inv hb ha
    cases res with
    | ok u => exact ih b' hb'
    | error e => exact hb'

theorem send_order_qtyInv (os : List Order) :
    ∀ b : OrderBook, b.inv → b.qtyInv →
    (∀ o ∈ os, 0 ≤ o.quantity ∧ o.quantity ≤ o.original_quantity) →
    (send_order b os).2.qtyInv := by
  induction os with
  | nil =>
    intro b hb hq hos
    simpa [send_order] using hq
  | cons o os ih =>
    intro b hb hq hos
    rw [send_order]
    rcases ha : add_order b o with ⟨res, b', o'⟩
    have h1 := hos o (List.mem_cons_self _ _)
    have hb' : b'.inv := add_order_inv hb ha
    have hq' : b'.qtyInv := add_order_qtyInv hb hq h1.1 h1.2 ha
    cases res with
    | ok u => exact ih b' hb' hq' (fun x hx => hos x (List.mem_cons_of_mem _ hx))
    | error e => exact hq'

theorem emptyBook_inv (sym : String) : (OrderBook.make sym).inv := by
  refine ⟨?_, ?_, ?_, ?_, ?_, ?_⟩ <;> simp [OrderBook.make, heapSorted, posGet, signedSum]

theorem emptyBook_qtyInv (sym : String) : (OrderBook.make sym).qtyInv := by
  refine ⟨?_, ?_, ?_⟩ <;> simp [OrderBook.make]

theorem signedSum_eq_aggressorSum (ts : List Trade) (h : ∀ t ∈ ts, tradeWf t) :
    signedSum ts = aggressorSum ts := by
  induction ts with
  | nil => simp [signedSum, aggressorSum]
  | cons t ts ih =>
    obtain ⟨raw, bestId, r, rest, -, -, hact, hsides, -⟩ := h t (List.mem_cons_self _ _)
    have hrec : signedSum ts = aggressorSum ts := ih (fun x hx => h x (List.mem_cons_of_mem _ hx))
    simp only [signedSum, aggressorSum, List.map_cons, List.sum_cons] at *
    rw [hrec]
    congr 1
    rcases hsides with hbuy | hsell
    · simp [tradeSigned, tradeAggSigned, hact, hbuy]
    · simp [tradeSigned, tradeAggSigned, hact, hsell]



/-- C1: in every book reachable by submitting a sequence of orders to a fresh
book, every recorded trade was made against the head of the opposite-side
heap at that moment, and that resting order is the best priced one there:
for an incoming BUY no resting offer has a lower price, for an incoming SELL
no resting bid has a higher price, and at equal price the selected resting
order has the least order_id. -/
theorem claim1_price_time_priority (sym : String) (os : List Order) (b : OrderBook)
    (h : send_order (OrderBook.make sym) os = (.ok (), b)) :
    ∀ t ∈ b.trades, ∃ raw bestId r rest,
      t.heapBefore = (raw, bestId, r) :: rest ∧
      (t.incomingBefore.side = "BUY" ∨ t.incomingBefore.side = "SELL") ∧
      (t.incomingBefore.side = "BUY" → ∀ e ∈ t.heapBefore,
        r.price < e.2.2.price ∨ (r.price = e.2.2.price ∧ r.order_id ≤ e.2.2.order_id)) ∧
      (t.incomingBefore.side = "SELL" → ∀ e ∈ t.heapBefore,
        e.2.2.price < r.price ∨ (e.2.2.price = r.price ∧ r.order_id ≤ e.2.2.order_id)) := by
  have hinv := send_order_inv os _ (emptyBook_inv sym)
  rw [h] at hinv
  have htw := hinv.2.2.2.2.1
  intro t ht
  obtain ⟨raw, bestId, r, rest, hhb, hsort, hact, hsides, hwb, hws, hpr, hib, his, hqty, hpos⟩ :=
    htw t ht
  refine ⟨raw, bestId, r, rest, hhb, hsides, ?_, ?_⟩
  · intro hbuy e he
    have hle : entryLe (raw, bestId, r) e := by
      rw [hhb] at he hsort
      rcases List.mem_cons.1 he with rfl | he
      · exact entryLe_refl _
      · exact (List.pairwise_cons.1 hsort).1 e he
    have hwhead := hwb hbuy _ (by rw [hhb]; exact List.mem_cons_self _ _)
    have hwe := hwb hbuy e he
    have hw1 : raw = r.price := hwhead.1
    have hw2 : bestId = r.order_id := hwhead.2
    have he1 : e.1 = e.2.2.price := hwe.1
    have he2 : e.2.1 = e.2.2.order_id := hwe.2
    have hle' : raw < e.1 ∨ (raw = e.1 ∧ bestId ≤ e.2.1) := hle
    rcases hle' with hlt | ⟨heq, hid⟩
    · left; omega
    · right; constructor <;> omega
  · intro hsell e he
    have hle : entryLe (raw, bestId, r) e := by
      rw [hhb] at he hsort
      rcases List.mem_cons.1 he with rfl | he
      · exact entryLe_refl _
      · exact (List.pairwise_cons.1 hsort).1 e he
    have hwhead := hws hsell _ (by rw [hhb]; exact List.mem_cons_self _ _)
    have hwe := hws hsell e he
    have hw1 : raw = -r.price := hwhead.1
    have hw2 : bestId = r.order_id := hwhead.2
    have he1 : e.1 = -e.2.2.price := hwe.1
    have he2 : e.2.1 = e.2.2.order_id := hwe.2
    have hle' : raw < e.1 ∨ (raw = e.1 ∧ bestId ≤ e.2.1) := hle
    rcases hle' with hlt | ⟨heq, hid⟩
    · left; omega
    · right; constructor <;> omega

/-- C2: in every reachable book, every recorded trade carries the price of
the resting (non-aggressing) order, has buy_order_id and sell_order_id
assigned by the side of the incoming order, and has quantity equal to the
executed amount, the smaller of the two remaining quantities. -/
theorem claim2_trade_at_resting_price (sym : String) (os : List Order) (b : OrderBook)
    (h : send_order (OrderBook.make sym) os = (.ok (), b)) :
    ∀ t ∈ b.trades, ∃ raw bestId r rest,
      t.heapBefore = (raw, bestId, r) :: rest ∧
      t.price = r.price ∧
      (t.incomingBefore.side = "BUY" ∨ t.incomingBefore.side = "SELL") ∧
      (t.incomingBefore.side = "BUY" →
        t.buy_order_id = t.incomingBefore.order_id ∧ t.sell_order_id = r.order_id) ∧
      (t.incomingBefore.side = "SELL" →
        t.sell_order_id = t.incomingBefore.order_id ∧ t.buy_order_id = r.order_id) ∧
      t.quantity = min t.incomingBefore.quantity r.quantity := by
  have hinv := send_order_inv os _ (emptyBook_inv sym)
  rw [h] at hinv
  have htw := hinv.2.2.2.2.1
  intro t ht
  obtain ⟨raw, bestId, r, rest, hhb, hsort, hact, hsides, hwb, hws, hpr, hib, his, hqty, hposq⟩ :=
    htw t ht
  exact ⟨raw, bestId, r, rest, hhb, hpr, hsides, hib, his, hqty⟩

/-- C4: in every book reachable by successful submissions from a fresh book,
the position recorded for the book symbol equals the signed sum over all
recorded trades of +quantity when the aggressor (incoming) side was BUY and
-quantity when it was SELL. -/
theorem claim4_position_is_aggressor_sum (sym : String) (os : List Order) (b : OrderBook)
    (h : send_order (OrderBook.make sym) os = (.ok (), b)) :
    posGet b.positions b.symbol = aggressorSum b.trades := by
  have hinv := send_order_inv os _ (emptyBook_inv sym)
  rw [h] at hinv
  rw [hinv.2.2.2.2.2]
  exact signedSum_eq_aggressorSum b.trades hinv.2.2.2.2.1

/-- C10: in every book reachable from submissions of orders with
nonnegative quantity bounded by their original quantity, every recorded
trade has quantity at least 1. -/
theorem claim10_trade_quantity_positive (sym : String) (os : List Order) (b : OrderBook)
    (h : send_order (OrderBook.make sym) os = (.ok (), b))
    (hos : ∀ o ∈ os, 0 ≤ o.quantity ∧ o.quantity ≤ o.original_quantity) :
    ∀ t ∈ b.trades, 1 ≤ t.quantity := by
  have hq := send_order_qtyInv os _ (emptyBook_inv sym) (emptyBook_qtyInv sym) hos
  rw [h] at hq
  exact hq.2.2



/-- C5: submitting an order with a foreign symbol fails with SymbolMismatch,
and submitting one with a side that is neither BUY nor SELL fails with
UnknownSide; in both cases the book (trades, positions, bids, offers) and
the order are returned exactly as they were. -/
theorem claim5_rejection_leaves_state (b : OrderBook) (o : Order) :
    (o.symbol ≠ b.symbol → add_order b o = (.error .symbolMismatch, b, o)) ∧
    (o.symbol = b.symbol → o.side ≠ "BUY" → o.side ≠ "SELL" →
      add_order b o = (.error .unknownSide, b, o)) := by
  constructor
  · intro h
    simp [add_order, h]
  · intro h1 h2 h3
    simp [add_order, h1, h2, h3]

/-- C6: Order.execute fails with InvalidArgument and leaves the order
unchanged when the requested quantity is not positive; otherwise it returns
the minimum of the requested and the remaining quantity and decrements the
remaining quantity by exactly that amount. -/
theorem claim6_execute_contract (o : Order) (q : ℤ) :
    (q ≤ 0 → o.execute q = (.error .invalidArgument, o)) ∧
    (0 < q → o.execute q =
      (.ok (min q o.quantity), { o with quantity := o.quantity - min q o.quantity })) := by
  constructor
  · intro h
    simp [Order.execute, h]
  · intro h
    simp [Order.execute, not_le.2 h]

/-- C7: the stored price is not the exact half-up decimal rounding of the
written price input, because the input passes through a binary64 float.  For
the input 0.145 the float value is 5224175567749775 / 2 ^ 55, slightly below
0.145, so the constructor stores 0.14 (14 cents), while exact half-up
rounding of 0.145 gives 0.15 (15 cents): the claim fails on the code at its
own example input. -/
theorem claim7_price_rounding_uses_float :
    float64Val 145 1000 = (5224175567749775, 36028797018963968) ∧
    (Order.make "TESLA" "BUY" 5224175567749775 36028797018963968 1 1).price = 14 ∧
    quantizeCents 145 1000 = 15 ∧ (14 : ℤ) ≠ 15 :=
  ⟨by decide, by decide, by decide, by decide⟩

/-- C8: an order created with nonnegative quantity starts with quantity
equal to original_quantity and nonnegative; execute never drives a
nonnegative quantity negative, never increases it, and never changes
original_quantity; is_filled holds exactly when the quantity is 0; and in
every book reachable from nonnegative submissions every resting order keeps
0 <= quantity <= original_quantity. -/
theorem claim8_quantity_bounds :
    (∀ (s sd : String) (pn : ℤ) (pd : ℕ) (q i : ℤ), 0 ≤ q →
      (Order.make s sd pn pd q i).quantity = (Order.make s sd pn pd q i).original_quantity ∧
      0 ≤ (Order.make s sd pn pd q i).quantity) ∧
    (∀ (o : Order) (q : ℤ), 0 ≤ o.quantity →
      0 ≤ (o.execute q).2.quantity ∧ (o.execute q).2.quantity ≤ o.quantity ∧
      (o.execute q).2.original_quantity = o.original_quantity) ∧
    (∀ o : Order, o.is_filled = true ↔ o.quantity = 0) ∧
    (∀ (sym : String) (os : List Order) (b : OrderBook),
      send_order (OrderBook.make sym) os = (.ok (), b) →
      (∀ o ∈ os, 0 ≤ o.quantity ∧ o.quantity ≤ o.original_quantity) →
      ∀ e ∈ b.bids ++ b.offers, 0 ≤ e.2.2.quantity ∧ e.2.2.quantity ≤ e.2.2.original_quantity) := by
  refine ⟨?_, ?_, ?_, ?_⟩
  · intro s sd pn pd q i hq
    exact ⟨rfl, hq⟩
  · intro o q hq
    by_cases h : q ≤ 0
    · simp [Order.execute, h]
      omega
    · simp [Order.execute, h]
      omega
  · intro o
    exact is_filled_iff
  · intro sym os b h hos
    have hq := send_order_qtyInv os _ (emptyBook_inv sym) (emptyBook_qtyInv sym) hos
    rw [h] at hq
    intro e he
    rcases List.mem_append.1 he with he | he
    · have := hq.1 e he
      exact ⟨le_of_lt this.1, this.2⟩
    · have := hq.2.1 e he
      exact ⟨le_of_lt this.1, this.2⟩

/-- C9: an order with matching symbol, side BUY or SELL, and quantity 0 is
accepted without error and the call returns the book and the order exactly
unchanged: no trade, no position update, no resting order touched, and the
zero-quantity order is not inserted. -/
theorem claim9_zero_quantity_noop (b : OrderBook) (o : Order)
    (hsym : o.symbol = b.symbol) (hside : o.side = "BUY" ∨ o.side = "SELL")
    (hq : o.quantity = 0) :
    add_order b o = (.ok (), b, o) := by
  have hle : o.quantity ≤ 0 := le_of_eq hq
  have hfil : o.is_filled = true := is_filled_iff.2 hq
  rcases hside with hbuy | hsell
  · have hno := match_order_noop b.symbol true o b.offers b.trades b.positions hle
    obtain ⟨hne, hor, hhp, htr, hps⟩ := hno
    simp [add_order, hsym, hbuy, hne, hor, hhp, htr, hps, hfil]
  · have hno := match_order_noop b.symbol false o b.bids b.trades b.positions hle
    obtain ⟨hne, hor, hhp, htr, hps⟩ := hno
    have hnb : o.side ≠ "BUY" := by rw [hsell]; decide
    simp [add_order, hsym, hnb, hsell, hne, hor, hhp, htr, hps, hfil]



theorem claim1_witness :
    (send_order (OrderBook.make "X")
      [Order.make "X" "SELL" 101 1 5 1, Order.make "X" "SELL" 100 1 5 2,
       Order.make "X" "BUY" 102 1 8 3]).1 = .ok () ∧
    ∀ t ∈ ((send_order (OrderBook.make "X")
      [Order.make "X" "SELL" 101 1 5 1, Order.make "X" "SELL" 100 1 5 2,
       Order.make "X" "BUY" 102 1 8 3]).2).trades, ∃ raw bestId r rest,
      t.heapBefore = (raw, bestId, r) :: rest ∧
      (t.incomingBefore.side = "BUY" ∨ t.incomingBefore.side = "SELL") ∧
      (t.incomingBefore.side = "BUY" → ∀ e ∈ t.heapBefore,
        r.price < e.2.2.price ∨ (r.price = e.2.2.price ∧ r.order_id ≤ e.2.2.order_id)) ∧
      (t.incomingBefore.side = "SELL" → ∀ e ∈ t.heapBefore,
        e.2.2.price < r.price ∨ (e.2.2.price = r.price ∧ r.order_id ≤ e.2.2.order_id)) :=
  ⟨by decide, claim1_price_time_priority "X"
    [Order.make "X" "SELL" 101 1 5 1, Order.make "X" "SELL" 100 1 5 2,
     Order.make "X" "BUY" 102 1 8 3] _ (by decide)⟩

theorem claim2_witness :
    (send_order (OrderBook.make "X")
      [Order.make "X" "SELL" 99 1 10 1, Order.make "X" "BUY" 100 1 10 2]).1 = .ok () ∧
    ∀ t ∈ ((send_order (OrderBook.make "X")
      [Order.make "X" "SELL" 99 1 10 1, Order.make "X" "BUY" 100 1 10 2]).2).trades,
      ∃ raw bestId r rest,
      t.heapBefore = (raw, bestId, r) :: rest ∧
      t.price = r.price ∧
      (t.incomingBefore.side = "BUY" ∨ t.incomingBefore.side = "SELL") ∧
      (t.incomingBefore.side = "BUY" →
        t.buy_order_id = t.incomingBefore.order_id ∧ t.sell_order_id = r.order_id) ∧
      (t.incomingBefore.side = "SELL" →
        t.sell_order_id = t.incomingBefore.order_id ∧ t.buy_order_id = r.order_id) ∧
      t.quantity = min t.incomingBefore.quantity r.quantity :=
  ⟨by decide, claim2_trade_at_resting_price "X"
    [Order.make "X" "SELL" 99 1 10 1, Order.make "X" "BUY" 100 1 10 2] _ (by decide)⟩

theorem claim3_witness :
    (∀ e ∈ [((10000 : ℤ), (1 : ℤ), Order.make "X" "SELL" 100 1 5 1)], 0 < e.2.2.quantity) ∧
    (match_order "X" true (Order.make "X" "BUY" 100 1 3 2)
      [(10000, 1, Order.make "X" "SELL" 100 1 5 1)] [] []).reason = ExitReason.partialRest ∧
    (match_order "X" true (Order.make "X" "BUY" 100 1 3 2)
      [(10000, 1, Order.make "X" "SELL" 100 1 5 1)] [] []).order.quantity = 0 :=
  ⟨by decide, by decide,
    claim3_partial_stop_exhausts_incoming "X" true (Order.make "X" "BUY" 100 1 3 2)
      [(10000, 1, Order.make "X" "SELL" 100 1 5 1)] [] [] (by decide) (by decide)⟩

theorem claim4_witness :
    posGet ((send_order (OrderBook.make "X")
      [Order.make "X" "SELL" 99 1 10 1, Order.make "X" "BUY" 100 1 10 2]).2).positions
      ((send_order (OrderBook.make "X")
      [Order.make "X" "SELL" 99 1 10 1, Order.make "X" "BUY" 100 1 10 2]).2).symbol =
    aggressorSum ((send_order (OrderBook.make "X")
      [Order.make "X" "SELL" 99 1 10 1, Order.make "X" "BUY" 100 1 10 2]).2).trades :=
  claim4_position_is_aggressor_sum "X"
    [Order.make "X" "SELL" 99 1 10 1, Order.make "X" "BUY" 100 1 10 2] _ (by decide)

theorem claim5_witness :
    add_order (OrderBook.make "X") (Order.make "Y" "BUY" 100 1 5 1) =
      (.error .symbolMismatch, OrderBook.make "X", Order.make "Y" "BUY" 100 1 5 1) ∧
    add_order (OrderBook.make "X") (Order.make "X" "HOLD" 100 1 5 1) =
      (.error .unknownSide, OrderBook.make "X", Order.make "X" "HOLD" 100 1 5 1) :=
  ⟨(claim5_rejection_leaves_state _ _).1 (by decide),
   (claim5_rejection_leaves_state _ _).2 (by decide) (by decide) (by decide)⟩

theorem claim6_witness :
    (Order.make "X" "BUY" 100 1 5 1).execute (-1) =
      (.error .invalidArgument, Order.make "X" "BUY" 100 1 5 1) ∧
    (Order.make "X" "BUY" 100 1 5 1).execute 3 =
      (.ok (min 3 (Order.make "X" "BUY" 100 1 5 1).quantity),
        { Order.make "X" "BUY" 100 1 5 1 with
          quantity := (Order.make "X" "BUY" 100 1 5 1).quantity -
            min 3 (Order.make "X" "BUY" 100 1 5 1).quantity }) :=
  ⟨(claim6_execute_contract _ _).1 (by decide), (claim6_execute_contract _ _).2 (by decide)⟩

theorem claim8_witness :
    ((Order.make "X" "BUY" 145 1000 5 1).quantity =
        (Order.make "X" "BUY" 145 1000 5 1).original_quantity ∧
      0 ≤ (Order.make "X" "BUY" 145 1000 5 1).quantity) ∧
    (0 ≤ ((Order.make "X" "BUY" 100 1 5 1).execute 3).2.quantity ∧
      ((Order.make "X" "BUY" 100 1 5 1).execute 3).2.quantity ≤
        (Order.make "X" "BUY" 100 1 5 1).quantity ∧
      ((Order.make "X" "BUY" 100 1 5 1).execute 3).2.original_quantity =
        (Order.make "X" "BUY" 100 1 5 1).original_quantity) ∧
    ((Order.make "X" "BUY" 100 1 0 1).is_filled = true ↔
      (Order.make "X" "BUY" 100 1 0 1).quantity = 0) ∧
    (∀ e ∈ ((send_order (OrderBook.make "X")
        [Order.make "X" "SELL" 101 1 5 1, Order.make "X" "BUY" 100 1 7 2]).2).bids ++
        ((send_order (OrderBook.make "X")
        [Order.make "X" "SELL" 101 1 5 1, Order.make "X" "BUY" 100 1 7 2]).2).offers,
      0 ≤ e.2.2.quantity ∧ e.2.2.quantity ≤ e.2.2.original_quantity) :=
  ⟨claim8_quantity_bounds.1 "X" "BUY" 145 1000 5 1 (by decide),
   claim8_quantity_bounds.2.1 (Order.make "X" "BUY" 100 1 5 1) 3 (by decide),
   claim8_quantity_bounds.2.2.1 (Order.make "X" "BUY" 100 1 0 1),
   claim8_quantity_bounds.2.2.2 "X"
     [Order.make "X" "SELL" 101 1 5 1, Order.make "X" "BUY" 100 1 7 2] _ (by decide) (by decide)⟩

theorem claim9_witness :
    add_order ((add_order (OrderBook.make "X") (Order.make "X" "SELL" 101 1 3 7)).2.1)
        (Order.make "X" "BUY" 100 1 0 8) =
      (.ok (), (add_order (OrderBook.make "X") (Order.make "X" "SELL" 101 1 3 7)).2.1,
        Order.make "X" "BUY" 100 1 0 8) :=
  claim9_zero_quantity_noop _ _ (by decide) (by decide) (by decide)

theorem claim10_witness :
    (send_order (OrderBook.make "X")
      [Order.make "X" "SELL" 99 1 10 1, Order.make "X" "BUY" 100 1 10 2]).1 = .ok () ∧
    ∀ t ∈ ((send_order (OrderBook.make "X")
      [Order.make "X" "SELL" 99 1 10 1, Order.make "X" "BUY" 100 1 10 2]).2).trades,
      1 ≤ t.quantity :=
  ⟨by decide, claim10_trade_quantity_positive "X"
    [Order.make "X" "SELL" 99 1 10 1, Order.make "X" "BUY" 100 1 10 2] _ (by decide) (by decide)⟩


end Exchange
